import Mathlib

/-!
Verification of the `forward_ref_generic` crate: four declarative rewrite
families (`forward_ref_unop`, `forward_ref_binop`, `commutative_binop` /
`forward_ref_commutative_binop`, `forward_ref_op_assign`) that expand an
invocation into trait-implementation blocks.  The embedding models the
rewriter as a pure function from an invocation record to an optional list of
emitted implementation blocks (`none` = no rule of the family matches, i.e. a
compile-time grammar-match failure), and models the generated method bodies
semantically via a `Ref` wrapper standing for a shared reference to a `Copy`
value.
-/

namespace ForwardRefGeneric

/-- A type expression as it appears in an invocation: either an opaque type
written by the caller, or a reference `&T` added by the rewriter. -/
inductive Ty where
  | base : String → Ty
  | ref : Ty → Ty
deriving DecidableEq, Repr

/-- Whether a type expression is a reference `&T`. -/
def Ty.isRef : Ty → Bool
  | .ref _ => true
  | .base _ => false

/-- An invocation of one of the binary-shaped families, as in the shared
grammar `([Generics])? impl Trait (, Method)? for LHS (, RHS)? (where Bounds)?`.
Generics and bounds are opaque token sequences. -/
structure Invocation where
  generics : Option (List String)
  traitName : String
  methodName : Option String
  lhs : Ty
  rhs : Option Ty
  bounds : Option (List String)
deriving DecidableEq, Repr

/-- An invocation of the unary family, `([Generics])? impl Trait (, Method)?
for Type (where Bounds)?`. -/
structure UnaryInvocation where
  generics : Option (List String)
  traitName : String
  methodName : Option String
  ty : Ty
  bounds : Option (List String)
deriving DecidableEq, Repr

/-- One emitted trait-implementation block
`impl<generics> traitName<traitArg> for selfTy where bounds
\x7b type Output = <outBase as traitName<outArg>>::Output;
fn methodName(self, rhs) -> Self::Output \x7b body \x7d \x7d`
whose body is `<delegateTy>::methodName(a, b)` where `a` is `*self` when
`derefSelf` (else `self`), `b` is `*rhs` when `derefRhs` (else `rhs`), and
the two arguments appear in the order `(b, a)` when `swapsOperands`. -/
structure BinImpl where
  generics : Option (List String)
  traitName : String
  traitArg : Ty
  selfTy : Ty
  bounds : Option (List String)
  outBase : Ty
  outArg : Ty
  methodName : String
  delegateTy : Ty
  derefSelf : Bool
  derefRhs : Bool
  swapsOperands : Bool
deriving DecidableEq, Repr

/-- One emitted assignment-operator implementation block
`impl<generics> traitName<traitArg> for selfTy where bounds
\x7b fn methodName(&mut self, rhs: traitArg) \x7b <delegateTy>::methodName(self, *rhs) \x7d \x7d`. -/
structure AssignImpl where
  generics : Option (List String)
  traitName : String
  traitArg : Ty
  selfTy : Ty
  bounds : Option (List String)
  methodName : String
  delegateTy : Ty
  derefRhs : Bool
deriving DecidableEq, Repr

/-- One emitted unary-operator implementation block
`impl<generics> traitName for selfTy where bounds
\x7b type Output = <outBase as traitName>::Output;
fn methodName(self) -> Self::Output \x7b <delegateTy>::methodName(*self) \x7d \x7d`. -/
structure UnImpl where
  generics : Option (List String)
  traitName : String
  selfTy : Ty
  bounds : Option (List String)
  outBase : Ty
  methodName : String
  delegateTy : Ty
  derefSelf : Bool
deriving DecidableEq, Repr

/-- Trait-name resolution for `forward_ref_binop` (src/src/lib.rs:406-450):
the four rules that recognize `Add`, `Sub`, `Mul`, `Div` and re-enter with the
canonical method name filled in; any other trait has no such rule. -/
def binopTraitMethod : String → Option String
  | "Add" => some "add"
  | "Sub" => some "sub"
  | "Mul" => some "mul"
  | "Div" => some "div"
  | _ => none

/-- Trait-name resolution for `commutative_binop` and
`forward_ref_commutative_binop` (src/src/binary.rs:21-42 and 196-217): only
`Add` and `Mul` are recognized. -/
def commutativeTraitMethod : String → Option String
  | "Add" => some "add"
  | "Mul" => some "mul"
  | _ => none

/-- Trait-name resolution for `forward_ref_op_assign`
(src/src/assignment.rs:19-62): the four compound-assignment traits. -/
def assignTraitMethod : String → Option String
  | "AddAssign" => some "add_assign"
  | "SubAssign" => some "sub_assign"
  | "MulAssign" => some "mul_assign"
  | "DivAssign" => some "div_assign"
  | _ => none

/-- Trait-name resolution for `forward_ref_unop` (src/src/unary.rs:17-27):
only `Neg` is recognized. -/
def unopTraitMethod : String → Option String
  | "Neg" => some "neg"
  | _ => none

/-- Terminal emission rule of `forward_ref_binop` (src/src/lib.rs:465-502):
emit `impl t<rhs> for &lhs`, `impl t<&rhs> for lhs` and `impl t<&rhs> for
&lhs`, each with `type Output = <lhs as t<rhs>>::Output` and a body
delegating to `<lhs>::m` after dereferencing the referenced operands. -/
def forward_ref_binop_emit (g : Option (List String)) (t m : String) (lhs rhs : Ty)
    (b : Option (List String)) : List BinImpl :=
  [ { generics := g, traitName := t, traitArg := rhs, selfTy := .ref lhs, bounds := b,
      outBase := lhs, outArg := rhs, methodName := m, delegateTy := lhs,
      derefSelf := true, derefRhs := false, swapsOperands := false },
    { generics := g, traitName := t, traitArg := .ref rhs, selfTy := lhs, bounds := b,
      outBase := lhs, outArg := rhs, methodName := m, delegateTy := lhs,
      derefSelf := false, derefRhs := true, swapsOperands := false },
    { generics := g, traitName := t, traitArg := .ref rhs, selfTy := .ref lhs, bounds := b,
      outBase := lhs, outArg := rhs, methodName := m, delegateTy := lhs,
      derefSelf := true, derefRhs := true, swapsOperands := false } ]

/-- RHS-defaulting rule of `forward_ref_binop` (src/src/lib.rs:452-463): with
the method name present, an absent RHS is rewritten to `RHS := LHS` and the
invocation is re-dispatched into the emission rule. -/
def forward_ref_binop_with_method (g : Option (List String)) (t m : String) (lhs : Ty)
    (rhs : Option Ty) (b : Option (List String)) : List BinImpl :=
  match rhs with
  | none => forward_ref_binop_emit g t m lhs lhs b
  | some r => forward_ref_binop_emit g t m lhs r b

/-- The `forward_ref_binop` rewriter (src/src/lib.rs:406-503): with no method
name, one of the `Add`/`Sub`/`Mul`/`Div` rules must match and re-enters with
the canonical method; otherwise no rule matches (`none`). -/
def forward_ref_binop (inv : Invocation) : Option (List BinImpl) :=
  match inv.methodName with
  | some m =>
      some (forward_ref_binop_with_method inv.generics inv.traitName m inv.lhs inv.rhs inv.bounds)
  | none =>
      (binopTraitMethod inv.traitName).map fun m =>
        forward_ref_binop_with_method inv.generics inv.traitName m inv.lhs inv.rhs inv.bounds

/-- Terminal emission rule of `commutative_binop` (src/src/binary.rs:44-59):
emit the single swapped implementation `impl t<lhs> for rhs` with
`type Output = <lhs as t<rhs>>::Output` and body `<lhs>::m(rhs, self)`. -/
def commutative_binop_emit (g : Option (List String)) (t m : String) (lhs rhs : Ty)
    (b : Option (List String)) : List BinImpl :=
  [ { generics := g, traitName := t, traitArg := lhs, selfTy := rhs, bounds := b,
      outBase := lhs, outArg := rhs, methodName := m, delegateTy := lhs,
      derefSelf := false, derefRhs := false, swapsOperands := true } ]

/-- The `commutative_binop` rewriter (src/src/binary.rs:20-60): every rule
requires an explicit RHS; with no method name only `Add` and `Mul` are
recognized. -/
def commutative_binop (inv : Invocation) : Option (List BinImpl) :=
  match inv.rhs with
  | none => none
  | some r =>
    match inv.methodName with
    | some m => some (commutative_binop_emit inv.generics inv.traitName m inv.lhs r inv.bounds)
    | none =>
        (commutativeTraitMethod inv.traitName).map fun m =>
          commutative_binop_emit inv.generics inv.traitName m inv.lhs r inv.bounds

/-- Terminal rule of `forward_ref_commutative_binop` (src/src/binary.rs:219-235):
invoke `forward_ref_binop` once for the base pair `(lhs, rhs)` and once for
the swapped pair `(rhs, lhs)`. -/
def forward_ref_commutative_binop_emit (g : Option (List String)) (t m : String)
    (lhs rhs : Ty) (b : Option (List String)) : Option (List BinImpl) :=
  (forward_ref_binop ⟨g, t, some m, lhs, some rhs, b⟩).bind fun e1 =>
    (forward_ref_binop ⟨g, t, some m, rhs, some lhs, b⟩).map fun e2 => e1 ++ e2

/-- The `forward_ref_commutative_binop` rewriter (src/src/binary.rs:195-236):
every rule requires an explicit RHS; with no method name only `Add` and `Mul`
are recognized. -/
def forward_ref_commutative_binop (inv : Invocation) : Option (List BinImpl) :=
  match inv.rhs with
  | none => none
  | some r =>
    match inv.methodName with
    | some m =>
        forward_ref_commutative_binop_emit inv.generics inv.traitName m inv.lhs r inv.bounds
    | none =>
        (commutativeTraitMethod inv.traitName).bind fun m =>
          forward_ref_commutative_binop_emit inv.generics inv.traitName m inv.lhs r inv.bounds

/-- Terminal emission rule of `forward_ref_op_assign`
(src/src/assignment.rs:77-91): emit the single implementation
`impl t<&rhs> for lhs` with body `<lhs>::m(self, *rhs)`. -/
def forward_ref_op_assign_emit (g : Option (List String)) (t m : String) (lhs rhs : Ty)
    (b : Option (List String)) : List AssignImpl :=
  [ { generics := g, traitName := t, traitArg := .ref rhs, selfTy := lhs, bounds := b,
      methodName := m, delegateTy := lhs, derefRhs := true } ]

/-- RHS-defaulting rule of `forward_ref_op_assign` (src/src/assignment.rs:64-75):
with the method name present, an absent RHS is rewritten to `RHS := LHS` and
re-dispatched into the emission rule. -/
def forward_ref_op_assign_with_method (g : Option (List String)) (t m : String) (lhs : Ty)
    (rhs : Option Ty) (b : Option (List String)) : List AssignImpl :=
  match rhs with
  | none => forward_ref_op_assign_emit g t m lhs lhs b
  | some r => forward_ref_op_assign_emit g t m lhs r b

/-- The `forward_ref_op_assign` rewriter (src/src/assignment.rs:18-91). -/
def forward_ref_op_assign (inv : Invocation) : Option (List AssignImpl) :=
  match inv.methodName with
  | some m =>
      some (forward_ref_op_assign_with_method inv.generics inv.traitName m inv.lhs inv.rhs inv.bounds)
  | none =>
      (assignTraitMethod inv.traitName).map fun m =>
        forward_ref_op_assign_with_method inv.generics inv.traitName m inv.lhs inv.rhs inv.bounds

/-- Terminal emission rule of `forward_ref_unop` (src/src/unary.rs:29-44):
emit the single implementation `impl t for &ty` with body `<ty>::m(*self)`. -/
def forward_ref_unop_emit (g : Option (List String)) (t m : String) (ty : Ty)
    (b : Option (List String)) : List UnImpl :=
  [ { generics := g, traitName := t, selfTy := .ref ty, bounds := b,
      outBase := ty, methodName := m, delegateTy := ty, derefSelf := true } ]

/-- The `forward_ref_unop` rewriter (src/src/unary.rs:16-45). -/
def forward_ref_unop (inv : UnaryInvocation) : Option (List UnImpl) :=
  match inv.methodName with
  | some m => some (forward_ref_unop_emit inv.generics inv.traitName m inv.ty inv.bounds)
  | none =>
      (unopTraitMethod inv.traitName).map fun m =>
        forward_ref_unop_emit inv.generics inv.traitName m inv.ty inv.bounds

/-- An implementation header `impl Trait<Arg> for SelfTy`: what the language's
coherence rule compares when rejecting duplicate implementations. -/
structure ImplHeader where
  traitName : String
  traitArg : Ty
  selfTy : Ty
deriving DecidableEq, Repr

/-- The header of an emitted binary implementation block. -/
def BinImpl.header (e : BinImpl) : ImplHeader :=
  ⟨e.traitName, e.traitArg, e.selfTy⟩

/-- Modelled from the spec: the header of the base by-value implementation
`impl t<rhs> for lhs` that the caller must already have in scope (§6: "the
surrounding program's trait-implementation declarations, which must already
provide the base by-value operation"). -/
def baseImplHeader (t : String) (lhs rhs : Ty) : ImplHeader :=
  ⟨t, rhs, lhs⟩

/-- Whether an emitted binary implementation is a by-value/by-value
implementation (neither the self type nor the trait argument is a
reference). -/
def BinImpl.isByValue (e : BinImpl) : Bool :=
  !e.selfTy.isRef && !e.traitArg.isRef

/-- The by-value base implementation an emitted block's body delegates to:
the call `<delegateTy>::methodName(..)` at argument type `outArg` resolves
against the implementation `impl traitName<outArg> for delegateTy`. -/
def BinImpl.delegationBase (e : BinImpl) : Ty × String × Ty :=
  (e.delegateTy, e.methodName, e.outArg)

/-- A shared reference `&T` to a `Copy` value, modelled as a wrapper holding
the referenced value; `*x` reads `x.val`. -/
structure Ref (α : Type) where
  val : α
deriving DecidableEq, Repr

/-- The type of an operand slot: a reference wrapper when the emitted
implementation declares the slot as `&T`, the plain type otherwise. -/
def OperandTy (α : Type) : Bool → Type
  | true => Ref α
  | false => α

/-- Reading an operand inside an emitted body: `*x` (dereference) when the
slot is a reference, `x` itself otherwise. -/
def readOperand {α : Type} : (b : Bool) → OperandTy α b → α
  | true, x => x.val
  | false, x => x

/-- Meaning of an emitted binary body `<lhs>::meth(a, b)` (non-swapping
blocks of `forward_ref_binop_emit`): dereference each operand according to
its slot's flag and delegate to the base by-value operation `f`. -/
def interpBinBody {L R O : Type} (bs br : Bool) (f : L → R → O)
    (s : OperandTy L bs) (r : OperandTy R br) : O :=
  f (readOperand bs s) (readOperand br r)

/-- Meaning of the swapping body `<lhs>::meth(rhs, self)` emitted by
`commutative_binop_emit`: the receiver has type `R`, the argument type `L`,
and the base by-value operation `f` is applied to the swapped pair. -/
def interpCommBody {L R O : Type} (f : L → R → O) (s : R) (r : L) : O :=
  f r s

/-- The `Point` type of src/tests/binary.rs:8-23. -/
structure Point where
  x : Int
  y : Int
deriving DecidableEq, Repr

/-- Component-wise addition of `Point` (src/tests/binary.rs:14-23). -/
def Point.add (p q : Point) : Point :=
  ⟨p.x + q.x, p.y + q.y⟩

/-- The `Int1` wrapper of src/tests/binary.rs:124-125. -/
structure Int1 where
  val : Int
deriving DecidableEq, Repr

/-- The `Int2` wrapper of src/tests/binary.rs:127-128. -/
structure Int2 where
  val : Int
deriving DecidableEq, Repr

/-- The base operation `impl Add<Int2> for Int1` summing the inner values
(src/tests/binary.rs:130-136). -/
def Int1.add (a : Int1) (b : Int2) : Int :=
  a.val + b.val

end ForwardRefGeneric

namespace ForwardRefGeneric

theorem binopTraitMethod_isSome (t : String) :
    (binopTraitMethod t).isSome = (t == "Add" || t == "Sub" || t == "Mul" || t == "Div") := by
  unfold binopTraitMethod
  split <;> simp_all

theorem commutativeTraitMethod_isSome (t : String) :
    (commutativeTraitMethod t).isSome = (t == "Add" || t == "Mul") := by
  unfold commutativeTraitMethod
  split <;> simp_all

theorem assignTraitMethod_isSome (t : String) :
    (assignTraitMethod t).isSome
      = (t == "AddAssign" || t == "SubAssign" || t == "MulAssign" || t == "DivAssign") := by
  unfold assignTraitMethod
  split <;> simp_all

theorem unopTraitMethod_isSome (t : String) :
    (unopTraitMethod t).isSome = (t == "Neg") := by
  unfold unopTraitMethod
  split <;> simp_all

end ForwardRefGeneric

namespace ForwardRefGeneric

/-- C1: for every pair of (Copy) types `L` and `R` with a by-value
implementation `f` of a binary operator, the three implementations emitted by
`forward_ref_binop` (whose bodies dereference exactly the referenced
operands, as recorded by the emission's deref flags) give the same result as
the by-value operation under all four operand pairings; in particular for the
2D integer `Point` type with component-wise addition, `{1,2} + {5,3}` equals
`{6,5}` under every pairing. -/
theorem forward_ref_binop_four_pairings_agree :
    (∀ (g : Option (List String)) (t m : String) (lhsTy rhsTy : Ty) (b : Option (List String)),
      (forward_ref_binop ⟨g, t, some m, lhsTy, some rhsTy, b⟩).map
          (List.map fun e => (e.derefSelf, e.derefRhs, e.swapsOperands))
        = some [(true, false, false), (false, true, false), (true, true, false)])
    ∧ (∀ {L R O : Type} (f : L → R → O) (l : L) (r : R),
        interpBinBody true false f ⟨l⟩ r = f l r
      ∧ interpBinBody false true f l ⟨r⟩ = f l r
      ∧ interpBinBody true true f ⟨l⟩ ⟨r⟩ = f l r)
    ∧ (Point.add ⟨1, 2⟩ ⟨5, 3⟩ = ⟨6, 5⟩
      ∧ interpBinBody true false Point.add ⟨⟨1, 2⟩⟩ ⟨5, 3⟩ = ⟨6, 5⟩
      ∧ interpBinBody false true Point.add ⟨1, 2⟩ ⟨⟨5, 3⟩⟩ = ⟨6, 5⟩
      ∧ interpBinBody true true Point.add ⟨⟨1, 2⟩⟩ ⟨⟨5, 3⟩⟩ = ⟨6, 5⟩) := by
  refine ⟨fun g t m lhsTy rhsTy b => rfl, fun f l r => ⟨rfl, rfl, rfl⟩, ?_, ?_, ?_, ?_⟩
  all_goals decide

/-- C2: every canonical invocation of `forward_ref_binop` emits exactly the
three implementations `impl t<R> for &L`, `impl t<&R> for L` and
`impl t<&R> for &L`, each dereferencing its referenced operands and
delegating to `<L>::m` at argument type `R`, with the caller's generic
parameters and bound clause threaded unchanged onto all three. -/
theorem forward_ref_binop_canonical_emission
    (g : Option (List String)) (t m : String) (lhs rhs : Ty) (b : Option (List String)) :
    forward_ref_binop ⟨g, t, some m, lhs, some rhs, b⟩
      = some
        [ { generics := g, traitName := t, traitArg := rhs, selfTy := .ref lhs, bounds := b,
            outBase := lhs, outArg := rhs, methodName := m, delegateTy := lhs,
            derefSelf := true, derefRhs := false, swapsOperands := false },
          { generics := g, traitName := t, traitArg := .ref rhs, selfTy := lhs, bounds := b,
            outBase := lhs, outArg := rhs, methodName := m, delegateTy := lhs,
            derefSelf := false, derefRhs := true, swapsOperands := false },
          { generics := g, traitName := t, traitArg := .ref rhs, selfTy := .ref lhs, bounds := b,
            outBase := lhs, outArg := rhs, methodName := m, delegateTy := lhs,
            derefSelf := true, derefRhs := true, swapsOperands := false } ]
    ∧ ∀ e ∈ forward_ref_binop_emit g t m lhs rhs b,
        e.generics = g ∧ e.bounds = b ∧ e.methodName = m ∧ e.delegationBase = (lhs, m, rhs) := by
  refine ⟨rfl, ?_⟩
  intro e he
  simp only [forward_ref_binop_emit, List.mem_cons, List.not_mem_nil, or_false] at he
  rcases he with rfl | rfl | rfl <;> exact ⟨rfl, rfl, rfl, rfl⟩

/-- C7: with the method name present, supplying the right operand type
explicitly as equal to the left type produces exactly the same emission as
omitting it, for both families with an optional right operand type. -/
theorem rhs_defaulting_idempotent
    (g : Option (List String)) (t m : String) (lhs : Ty) (b : Option (List String)) :
    forward_ref_binop ⟨g, t, some m, lhs, some lhs, b⟩
      = forward_ref_binop ⟨g, t, some m, lhs, none, b⟩
    ∧ forward_ref_op_assign ⟨g, t, some m, lhs, some lhs, b⟩
      = forward_ref_op_assign ⟨g, t, some m, lhs, none, b⟩ :=
  ⟨rfl, rfl⟩

/-- C8: every canonical invocation of `forward_ref_op_assign` emits exactly
one implementation, `impl t<&R> for L`, whose body dereferences the reference
and delegates to `<L>::m`; the self type is the unmodified left type, never a
reference. -/
theorem forward_ref_op_assign_canonical_emission
    (g : Option (List String)) (t m : String) (lhs rhs : Ty) (b : Option (List String)) :
    forward_ref_op_assign ⟨g, t, some m, lhs, some rhs, b⟩
      = some [ { generics := g, traitName := t, traitArg := .ref rhs, selfTy := lhs, bounds := b,
                 methodName := m, delegateTy := lhs, derefRhs := true } ]
    ∧ (forward_ref_op_assign_emit g t m lhs rhs b).length = 1
    ∧ ∀ e ∈ forward_ref_op_assign_emit g t m lhs rhs b, e.selfTy = lhs := by
  refine ⟨rfl, rfl, ?_⟩
  intro e he
  simp only [forward_ref_op_assign_emit, List.mem_cons, List.not_mem_nil, or_false] at he
  rcases he with rfl
  rfl

end ForwardRefGeneric

namespace ForwardRefGeneric

/-- C3 counterexample: at the concrete invocation from the test suite
(`impl Add for Int1, Int2`), the commutative forwarder emits 6 new
implementation blocks across its two delegated calls, not 8 as the claim
states. -/
theorem forward_ref_commutative_binop_not_eight_impls :
    (forward_ref_commutative_binop
        ⟨none, "Add", some "add", .base "Int1", some (.base "Int2"), none⟩).map List.length
      ≠ some 8
    ∧ (forward_ref_commutative_binop
        ⟨none, "Add", some "add", .base "Int1", some (.base "Int2"), none⟩).map List.length
      = some 6 := by
  exact ⟨by decide, rfl⟩

/-- C3 amended: every canonical invocation of `forward_ref_commutative_binop`
with base pair `(L, R)` emits the reference-forwarding set of the plain
binary family twice — once for base pair `(L, R)` and once for base pair
`(R, L)` — producing 6 total new implementations across both calls (8 total
implementations counting the two already-existing by-value bases). -/
theorem forward_ref_commutative_binop_emits_twice
    (g : Option (List String)) (t m : String) (lhs rhs : Ty) (b : Option (List String)) :
    forward_ref_commutative_binop ⟨g, t, some m, lhs, some rhs, b⟩
      = some (forward_ref_binop_emit g t m lhs rhs b ++ forward_ref_binop_emit g t m rhs lhs b)
    ∧ (forward_ref_commutative_binop ⟨g, t, some m, lhs, some rhs, b⟩).map List.length
      = some 6 :=
  ⟨rfl, rfl⟩

/-- C4 counterexample: the commutative family has no RHS-defaulting rule — an
invocation carrying a method name but no right operand type matches no rule
at all (`none`), while the same invocation with the right operand type set to
the left type does expand, so the former is not rewritten into the latter. -/
theorem commutative_binop_no_rhs_defaulting :
    commutative_binop ⟨none, "Foo", some "foo", .base "X", none, none⟩ = none
    ∧ commutative_binop ⟨none, "Foo", some "foo", .base "X", some (.base "X"), none⟩ ≠ none := by
  exact ⟨rfl, by decide⟩

/-- C4 amended: the RHS-defaulting normalizer is shared by the binary and
assignment families only — there an invocation with a method name and no
right operand type expands exactly as if the right operand type were the left
type — while the commutative-binary family requires an explicit right operand
type (omitting it is a grammar-match failure for both of its forms) and the
unary family has no right operand slot at all. -/
theorem rhs_defaulting_shared_by_binary_and_assignment
    (g : Option (List String)) (t m : String) (lhs : Ty) (b : Option (List String)) :
    forward_ref_binop ⟨g, t, some m, lhs, none, b⟩
      = forward_ref_binop ⟨g, t, some m, lhs, some lhs, b⟩
    ∧ forward_ref_op_assign ⟨g, t, some m, lhs, none, b⟩
      = forward_ref_op_assign ⟨g, t, some m, lhs, some lhs, b⟩
    ∧ commutative_binop ⟨g, t, some m, lhs, none, b⟩ = none
    ∧ forward_ref_commutative_binop ⟨g, t, some m, lhs, none, b⟩ = none :=
  ⟨rfl, rfl, rfl, rfl⟩

/-- C5 counterexample: `Sub` is one of the four arithmetic binary operator
traits, yet both forms of the commutative family fail to expand when the
method name is omitted for it (their resolvers recognize only `Add` and
`Mul`), while the plain binary family does expand it. -/
theorem commutative_family_sub_not_recognized :
    commutative_binop ⟨none, "Sub", none, .base "X", some (.base "Y"), none⟩ = none
    ∧ forward_ref_commutative_binop ⟨none, "Sub", none, .base "X", some (.base "Y"), none⟩ = none
    ∧ forward_ref_binop ⟨none, "Sub", none, .base "X", some (.base "Y"), none⟩ ≠ none := by
  exact ⟨rfl, rfl, by decide⟩

/-- C5 amended: with the method name omitted, each family expands exactly
when the trait name is in that family's own recognized set — `Neg` for the
unary family; `Add`, `Sub`, `Mul`, `Div` for the plain binary family; only
`Add` and `Mul` for the commutative-binary family; `AddAssign`, `SubAssign`,
`MulAssign`, `DivAssign` for the assignment family — each resolving to its
canonical method name, and any other trait is a compile-time grammar-match
failure rather than a silent default. -/
theorem trait_resolution_per_family
    (g : Option (List String)) (t : String) (l r : Ty) (b : Option (List String)) :
    ((forward_ref_unop ⟨g, t, none, l, b⟩).isSome = (t == "Neg"))
    ∧ ((forward_ref_binop ⟨g, t, none, l, some r, b⟩).isSome
        = (t == "Add" || t == "Sub" || t == "Mul" || t == "Div"))
    ∧ ((commutative_binop ⟨g, t, none, l, some r, b⟩).isSome = (t == "Add" || t == "Mul"))
    ∧ ((forward_ref_commutative_binop ⟨g, t, none, l, some r, b⟩).isSome
        = (t == "Add" || t == "Mul"))
    ∧ ((forward_ref_op_assign ⟨g, t, none, l, some r, b⟩).isSome
        = (t == "AddAssign" || t == "SubAssign" || t == "MulAssign" || t == "DivAssign"))
    ∧ forward_ref_unop ⟨g, "Neg", none, l, b⟩ = forward_ref_unop ⟨g, "Neg", some "neg", l, b⟩
    ∧ forward_ref_binop ⟨g, "Add", none, l, some r, b⟩
        = forward_ref_binop ⟨g, "Add", some "add", l, some r, b⟩
    ∧ forward_ref_binop ⟨g, "Sub", none, l, some r, b⟩
        = forward_ref_binop ⟨g, "Sub", some "sub", l, some r, b⟩
    ∧ forward_ref_binop ⟨g, "Mul", none, l, some r, b⟩
        = forward_ref_binop ⟨g, "Mul", some "mul", l, some r, b⟩
    ∧ forward_ref_binop ⟨g, "Div", none, l, some r, b⟩
        = forward_ref_binop ⟨g, "Div", some "div", l, some r, b⟩
    ∧ commutative_binop ⟨g, "Add", none, l, some r, b⟩
        = commutative_binop ⟨g, "Add", some "add", l, some r, b⟩
    ∧ commutative_binop ⟨g, "Mul", none, l, some r, b⟩
        = commutative_binop ⟨g, "Mul", some "mul", l, some r, b⟩
    ∧ forward_ref_commutative_binop ⟨g, "Add", none, l, some r, b⟩
        = forward_ref_commutative_binop ⟨g, "Add", some "add", l, some r, b⟩
    ∧ forward_ref_commutative_binop ⟨g, "Mul", none, l, some r, b⟩
        = forward_ref_commutative_binop ⟨g, "Mul", some "mul", l, some r, b⟩
    ∧ forward_ref_op_assign ⟨g, "AddAssign", none, l, some r, b⟩
        = forward_ref_op_assign ⟨g, "AddAssign", some "add_assign", l, some r, b⟩
    ∧ forward_ref_op_assign ⟨g, "SubAssign", none, l, some r, b⟩
        = forward_ref_op_assign ⟨g, "SubAssign", some "sub_assign", l, some r, b⟩
    ∧ forward_ref_op_assign ⟨g, "MulAssign", none, l, some r, b⟩
        = forward_ref_op_assign ⟨g, "MulAssign", some "mul_assign", l, some r, b⟩
    ∧ forward_ref_op_assign ⟨g, "DivAssign", none, l, some r, b⟩
        = forward_ref_op_assign ⟨g, "DivAssign", some "div_assign", l, some r, b⟩ := by
  refine ⟨?_, ?_, ?_, ?_, ?_, rfl, rfl, rfl, rfl, rfl, rfl, rfl, rfl, rfl, rfl, rfl, rfl, rfl⟩
  · show ((unopTraitMethod t).map _).isSome = _
    cases h : unopTraitMethod t
    · have := unopTraitMethod_isSome t
      rw [h] at this
      exact this
    · have := unopTraitMethod_isSome t
      rw [h] at this
      exact this
  · show ((binopTraitMethod t).map _).isSome = _
    cases h : binopTraitMethod t
    · have := binopTraitMethod_isSome t
      rw [h] at this
      exact this
    · have := binopTraitMethod_isSome t
      rw [h] at this
      exact this
  · show ((commutativeTraitMethod t).map _).isSome = _
    cases h : commutativeTraitMethod t
    · have := commutativeTraitMethod_isSome t
      rw [h] at this
      exact this
    · have := commutativeTraitMethod_isSome t
      rw [h] at this
      exact this
  · show ((commutativeTraitMethod t).bind _).isSome = _
    cases h : commutativeTraitMethod t
    · have := commutativeTraitMethod_isSome t
      rw [h] at this
      exact this
    · have := commutativeTraitMethod_isSome t
      rw [h] at this
      exact this
  · show ((assignTraitMethod t).map _).isSome = _
    cases h : assignTraitMethod t
    · have := assignTraitMethod_isSome t
      rw [h] at this
      exact this
    · have := assignTraitMethod_isSome t
      rw [h] at this
      exact this

end ForwardRefGeneric

namespace ForwardRefGeneric

/-- C6: after applying the commutative rewriter (whose single emitted
implementation swaps the two operands before delegating, as recorded by its
`swapsOperands` flag), `r op l` equals `l op r` for all values; with `Int1`
wrapping 5, `Int2` wrapping 3 and the base operation summing the inner
values, both orders give 8, and once the commutative reference-forwarding is
also applied all eight reference/value pairings give 8. -/
theorem commutative_binop_swapped_result_agrees :
    (∀ (g : Option (List String)) (t m : String) (lhsTy rhsTy : Ty) (b : Option (List String)),
      (commutative_binop ⟨g, t, some m, lhsTy, some rhsTy, b⟩).map
          (List.map fun e => (e.swapsOperands, e.traitArg, e.selfTy))
        = some [(true, lhsTy, rhsTy)])
    ∧ (∀ {L R O : Type} (f : L → R → O) (l : L) (r : R), interpCommBody f r l = f l r)
    ∧ (Int1.add ⟨5⟩ ⟨3⟩ = 8
      ∧ interpCommBody Int1.add ⟨3⟩ ⟨5⟩ = 8
      ∧ interpBinBody true false Int1.add ⟨⟨5⟩⟩ ⟨3⟩ = 8
      ∧ interpBinBody false true Int1.add ⟨5⟩ ⟨⟨3⟩⟩ = 8
      ∧ interpBinBody true true Int1.add ⟨⟨5⟩⟩ ⟨⟨3⟩⟩ = 8
      ∧ interpBinBody true false (interpCommBody Int1.add) ⟨⟨3⟩⟩ ⟨5⟩ = 8
      ∧ interpBinBody false true (interpCommBody Int1.add) ⟨3⟩ ⟨⟨5⟩⟩ = 8
      ∧ interpBinBody true true (interpCommBody Int1.add) ⟨⟨3⟩⟩ ⟨⟨5⟩⟩ = 8) := by
  refine ⟨fun g t m lhsTy rhsTy b => rfl, fun f l r => rfl, ?_⟩
  refine ⟨by decide, by decide, by decide, by decide, by decide, by decide, by decide, by decide⟩

/-- C9: invoking the commutative family with identical left and right operand
types produces duplicate implementations, which the language's coherence rule
rejects at compile time: `commutative_binop` emits exactly the header of the
pre-existing base by-value implementation, and `forward_ref_commutative_binop`
emits its three reference implementations twice over, so its emission is
never duplicate-free. -/
theorem commutative_family_identical_types_conflict
    (g : Option (List String)) (t m : String) (ty : Ty) (b : Option (List String)) :
    (commutative_binop ⟨g, t, some m, ty, some ty, b⟩).map (List.map BinImpl.header)
      = some [baseImplHeader t ty ty]
    ∧ forward_ref_commutative_binop ⟨g, t, some m, ty, some ty, b⟩
      = some (forward_ref_binop_emit g t m ty ty b ++ forward_ref_binop_emit g t m ty ty b)
    ∧ ¬ (forward_ref_binop_emit g t m ty ty b ++ forward_ref_binop_emit g t m ty ty b).Nodup := by
  refine ⟨rfl, rfl, fun h => ?_⟩
  rw [List.nodup_append] at h
  exact h.2.2 (List.mem_cons_self _ _) (List.mem_cons_self _ _)

/-- C10: the emission of `forward_ref_commutative_binop` for base pair
`(L, R)` delegates three times to the by-value base `L op R` and three times
to the by-value base `R op L`, while none of its six emitted implementations
is itself a by-value implementation — so the emission type-checks only if
both by-value implementations already exist at the invocation site. -/
theorem forward_ref_commutative_binop_requires_both_bases
    (g : Option (List String)) (t m : String) (lhs rhs : Ty) (b : Option (List String)) :
    (forward_ref_commutative_binop ⟨g, t, some m, lhs, some rhs, b⟩).map
        (List.map BinImpl.delegationBase)
      = some [(lhs, m, rhs), (lhs, m, rhs), (lhs, m, rhs),
              (rhs, m, lhs), (rhs, m, lhs), (rhs, m, lhs)]
    ∧ forward_ref_commutative_binop ⟨g, t, some m, lhs, some rhs, b⟩
      = some (forward_ref_binop_emit g t m lhs rhs b ++ forward_ref_binop_emit g t m rhs lhs b)
    ∧ ∀ e ∈ forward_ref_binop_emit g t m lhs rhs b ++ forward_ref_binop_emit g t m rhs lhs b,
        e.isByValue = false := by
  refine ⟨rfl, rfl, ?_⟩
  intro e he
  simp only [forward_ref_binop_emit, List.mem_append, List.mem_cons, List.not_mem_nil,
    or_false] at he
  rcases he with (rfl | rfl | rfl) | (rfl | rfl | rfl) <;>
    simp [BinImpl.isByValue, Ty.isRef]

end ForwardRefGeneric
